import Mathlib

/-!
Verification development for `src/computation/python/python-3.6/app.py`.

The program is a minimal HTTP server: `calc_pi` sums the Leibniz series for
π/4 and scales by 4, and `SimpleHTTPRequestHandler.do_GET` parses the
`iterations` query parameter (default 1), calls `calc_pi`, and writes a
`200 text/plain` response containing the decimal string of the result.

Modelling conventions:
* Python `float` (IEEE-754 float64) arithmetic is modelled exactly over `ℚ`;
  the loop structure, evaluation order and all intermediate states are kept.
* Python `int` is modelled by `Int` (arbitrary precision in both).
* The handler is modelled as a function from the request target (the string
  after `GET `, as a `List Char`) to the sequence of emitted response events
  together with an optional uncaught exception, mirroring the straight-line
  statement order of `do_GET`.
-/

open Finset

namespace Sharkbench

/-- One execution of the loop body of `calc_pi` (app.py lines 23-27).
The state is the pair `(pi, denominator)`; `x` is the loop index from
`range(iterations)`. -/
def calcPiStep (s : ℚ × ℚ) (x : ℕ) : ℚ × ℚ :=
  let pi := if x % 2 = 0 then s.1 + 1 / s.2 else s.1 - 1 / s.2
  (pi, s.2 + 2)

/-- `calc_pi` from app.py lines 19-29.  `pi` starts at `0.0`, `denominator`
at `1.0`; the loop runs over `range(iterations)`, which is empty when
`iterations ≤ 0` (hence `Int.toNat`); finally the sum is multiplied by 4. -/
def calc_pi (iterations : Int) : ℚ :=
  ((List.range iterations.toNat).foldl calcPiStep (0, 1)).1 * 4

/-- The Leibniz partial sum named by the spec: `Σ_{k<n} (-1)^k / (2k+1)`.
This definition follows the spec's words, to be compared with `calc_pi`. -/
def leibnizPartialSum (n : ℕ) : ℚ :=
  ∑ k ∈ Finset.range n, (-1 : ℚ) ^ k / (2 * (k : ℚ) + 1)

lemma calcPi_foldl (n : ℕ) :
    (List.range n).foldl calcPiStep (0, 1) =
      (leibnizPartialSum n, 2 * (n : ℚ) + 1) := by
  induction n with
  | zero => simp [leibnizPartialSum]
  | succ m ih =>
    rw [List.range_succ, List.foldl_append, ih]
    simp only [List.foldl_cons, List.foldl_nil, calcPiStep, leibnizPartialSum,
      Finset.sum_range_succ, Prod.mk.injEq]
    constructor
    · rcases Nat.even_or_odd m with he | ho
      · rw [if_pos (Nat.even_iff.mp he), he.neg_one_pow]
      · have h1 : m % 2 = 1 := Nat.odd_iff.mp ho
        rw [if_neg (by omega), ho.neg_one_pow]
        ring
    · push_cast; ring

lemma calc_pi_natCast (n : ℕ) : calc_pi n = 4 * leibnizPartialSum n := by
  unfold calc_pi
  rw [Int.toNat_natCast, calcPi_foldl]
  ring

lemma calc_pi_one : calc_pi 1 = 4 := by
  have h : calc_pi ((1 : ℕ) : Int) = 4 * leibnizPartialSum 1 := calc_pi_natCast 1
  norm_num [leibnizPartialSum, Finset.sum_range_succ, Finset.sum_range_zero] at h
  exact h

/-- C1: for every non-negative integer `n`, `calc_pi n` is the Leibniz
partial sum `Σ_{k<n} (-1)^k / (2k+1)` (terms taken in increasing index
order with the denominator advanced by 2 each step) multiplied by 4.
The float64 operations are modelled exactly over `ℚ`; the loop performs
precisely the operations of the described sum in the described order. -/
theorem calc_pi_eq_leibniz (n : ℕ) :
    calc_pi (n : Int) = 4 * leibnizPartialSum n :=
  calc_pi_natCast n

/-- C3: for every integer `n ≤ 0` (negative or zero), `calc_pi n`
returns exactly `0` and raises no error: `range(iterations)` is empty. -/
theorem calc_pi_nonpos (n : Int) (h : n ≤ 0) : calc_pi n = 0 := by
  unfold calc_pi
  rw [Int.toNat_of_nonpos h]
  simp

/-- Witness for C3 at the concrete inputs `-3` and `0`. -/
theorem calc_pi_nonpos_witness : calc_pi (-3) = 0 ∧ calc_pi 0 = 0 :=
  ⟨calc_pi_nonpos (-3) (by decide), calc_pi_nonpos 0 (by decide)⟩

/-- C5: `calc_pi 0 = 0.0` exactly, `calc_pi 1 = 4.0` exactly, and
`calc_pi 2 = 4.0 - 4.0/3.0` (exactly in the `ℚ` model of float64). -/
theorem calc_pi_small_values :
    calc_pi 0 = 0 ∧ calc_pi 1 = 4 ∧ calc_pi 2 = 4 - 4 / 3 := by
  have h0 : calc_pi ((0 : ℕ) : Int) = 4 * leibnizPartialSum 0 := calc_pi_natCast 0
  have h1 : calc_pi ((1 : ℕ) : Int) = 4 * leibnizPartialSum 1 := calc_pi_natCast 1
  have h2 : calc_pi ((2 : ℕ) : Int) = 4 * leibnizPartialSum 2 := calc_pi_natCast 2
  norm_num [leibnizPartialSum, Finset.sum_range_succ, Finset.sum_range_zero]
    at h0 h1 h2
  refine ⟨h0, h1, by rw [h2]; norm_num⟩

/-!
### The request handler

`SimpleHTTPRequestHandler.do_GET` (app.py lines 8-17) receives the request
target in `self.path`.  It computes `urlparse(self.path).query`, splits it
with `urllib.parse.parse_qs`, takes the first value of `iterations`
(defaulting to `1`), converts it with `int`, and then emits the response:
`send_response(200)`, `send_header("Content-type", "text/plain")`,
`end_headers()`, `wfile.write(str(calc_pi(iterations)).encode())`.

Request strings are modelled as `List Char`.  The percent- and
plus-decoding performed inside `parse_qs`, and the whitespace/underscore
tolerance of Python `int`, are not modelled: inputs are taken in already
decoded form.  The float-to-string conversion `str` is implementation
defined by the spec, so the handler is parametrised by an arbitrary
formatting function `fmt : ℚ → String`.
-/

/-- The query component of a request target as computed by
`urllib.parse.urlparse`: everything after the first `?` of the part that
precedes the first `#`; empty when there is no `?`. -/
def extractQuery (path : List Char) : List Char :=
  let beforeFrag := path.takeWhile (fun c => c != '#')
  if '?' ∈ beforeFrag then (beforeFrag.dropWhile (fun c => c != '?')).tail
  else []

/-- One step of splitting a query string at the separators `&` and `;`
(Python 3.6 `urllib.parse.parse_qsl` splits at both). -/
def splitSepStep (c : Char) (acc : List (List Char)) : List (List Char) :=
  if c = '&' ∨ c = ';' then [] :: acc
  else
    match acc with
    | [] => [[c]]
    | s :: ss => (c :: s) :: ss

/-- Split a query string at `&` and `;`, keeping empty segments. -/
def splitSep (l : List Char) : List (List Char) :=
  l.foldr splitSepStep [[]]

/-- One `name=value` segment, split at the first `=` as
`name_value.split('=', 1)` does.  With `parse_qs`'s defaults
(`keep_blank_values=False`), a segment with no `=` and a segment with an
empty value are both dropped (`none`). -/
def splitPair (seg : List Char) : Option (List Char × List Char) :=
  if '=' ∈ seg then
    let value := (seg.dropWhile (fun c => c != '=')).tail
    if value = [] then none
    else some (seg.takeWhile (fun c => c != '='), value)
  else none

/-- `urllib.parse.parse_qs` applied to a query string, as the flat list of
key/value pairs in occurrence order (`parse_qs` groups them into a dict
whose per-key lists preserve this order). -/
def parse_qs (q : List Char) : List (List Char × List Char) :=
  (splitSep q).filterMap splitPair

/-- `query_components.get(key, default)[0]`: the value of the first
occurrence of `key`, if any.  (`parse_qs` groups values by key in
occurrence order, so index `[0]` of the dict entry is the value of the
first occurrence.) -/
def firstVal (ps : List (List Char × List Char)) (k : List Char) :
    Option (List Char) :=
  (ps.find? (fun p => p.1 == k)).map Prod.snd

/-- The digits of a decimal numeral, or `none` if the string is empty or
contains a non-digit. -/
def digitsToNat (s : List Char) : Option ℕ :=
  if s ≠ [] ∧ ∀ c ∈ s, c.isDigit = true then
    some (s.foldl (fun a c => 10 * a + (c.toNat - 48)) 0)
  else none

/-- Python `int(string)` on its core grammar: an optional sign followed by
one or more decimal digits.  `none` models the `ValueError` raised on any
other input.  (Surrounding whitespace and underscore digit grouping, which
Python also accepts, are not modelled.) -/
def pyInt (s : List Char) : Option Int :=
  match s with
  | '-' :: rest => (digitsToNat rest).map (fun n => -(n : Int))
  | '+' :: rest => (digitsToNat rest).map (fun n => (n : Int))
  | _ => (digitsToNat s).map (fun n => (n : Int))

/-- The key `"iterations"`. -/
def iterationsKey : List Char :=
  ['i', 't', 'e', 'r', 'a', 't', 'i', 'o', 'n', 's']

/-- Line 11 of app.py: `int(query_components.get('iterations', [1])[0])`,
applied to a query string.  When the key is absent the default list `[1]`
makes the argument the integer `1` (and `int(1) = 1`); when present, the
first value string is converted and may fail. -/
def iterationsOf (q : List Char) : Option Int :=
  match firstVal (parse_qs q) iterationsKey with
  | some v => pyInt v
  | none => some 1

/-- An observable action performed on the response by the handler. -/
inductive HttpEvent where
  /-- `self.send_response(status)` -/
  | statusLine (status : ℕ)
  /-- `self.send_header(name, value)` -/
  | header (name value : String)
  /-- `self.end_headers()` -/
  | endOfHeaders
  /-- `self.wfile.write(text.encode())` -/
  | bodyWrite (text : String)
  deriving DecidableEq

/-- The result of one handler run: the response events emitted, in order,
and the uncaught exception if one was raised. -/
structure Outcome where
  events : List HttpEvent
  error : Option String
  deriving DecidableEq

/-- The body of `do_GET` applied to an already extracted query string,
mirroring the statement order of lines 10-17: the `iterations` value is
computed first, so a `ValueError` from `int` (modelled by
`iterationsOf q = none`) propagates before any event is emitted. -/
def handleQuery (fmt : ℚ → String) (q : List Char) : Outcome :=
  match iterationsOf q with
  | none => ⟨[], some "ValueError"⟩
  | some iterations =>
      ⟨[HttpEvent.statusLine 200,
        HttpEvent.header "Content-type" "text/plain",
        HttpEvent.endOfHeaders,
        HttpEvent.bodyWrite (fmt (calc_pi iterations))], none⟩

/-- `SimpleHTTPRequestHandler.do_GET` (app.py lines 8-17) as a function of
the request target `self.path`. -/
def do_GET (fmt : ℚ → String) (path : List Char) : Outcome :=
  handleQuery fmt (extractQuery path)

/-! ### Supporting lemmas about the query-string pipeline -/

lemma takeWhile_append_all (p : Char → Bool) (pre rest : List Char)
    (h : ∀ c ∈ pre, p c = true) :
    (pre ++ rest).takeWhile p = pre ++ rest.takeWhile p := by
  induction pre with
  | nil => simp
  | cons c cs ih =>
    have hc : p c = true := h c (by simp)
    simp only [List.cons_append, List.takeWhile_cons_of_pos hc,
      List.cons.injEq, true_and]
    exact ih (fun d hd => h d (by simp [hd]))

lemma dropWhile_append_all (p : Char → Bool) (pre rest : List Char)
    (h : ∀ c ∈ pre, p c = true) :
    (pre ++ rest).dropWhile p = rest.dropWhile p := by
  induction pre with
  | nil => simp
  | cons c cs ih =>
    have hc : p c = true := h c (by simp)
    simp only [List.cons_append, List.dropWhile_cons_of_pos hc]
    exact ih (fun d hd => h d (by simp [hd]))

lemma extractQuery_front (pre q : List Char) (hq : '?' ∉ pre)
    (hh : '#' ∉ pre) :
    extractQuery (pre ++ '?' :: q) = q.takeWhile (fun c => c != '#') := by
  have htake : (pre ++ '?' :: q).takeWhile (fun c => c != '#')
      = pre ++ '?' :: q.takeWhile (fun c => c != '#') := by
    have hsplit : pre ++ '?' :: q = (pre ++ ['?']) ++ q := by simp
    rw [hsplit, takeWhile_append_all]
    · simp
    · intro c hc
      rcases List.mem_append.mp hc with h1 | h1
      · refine bne_iff_ne.mpr (fun e => hh ?_)
        subst e; exact h1
      · simp only [List.mem_singleton] at h1
        subst h1; decide
  simp only [extractQuery, htake]
  rw [if_pos (by simp)]
  rw [dropWhile_append_all _ _ _ (fun c hc => by
    refine bne_iff_ne.mpr (fun e => hq ?_)
    subst e; exact hc)]
  rw [List.dropWhile_cons_of_neg (by simp)]
  rfl

lemma splitSepStep_ne_nil (c : Char) (acc : List (List Char)) :
    splitSepStep c acc ≠ [] := by
  unfold splitSepStep
  by_cases hc : c = '&' ∨ c = ';'
  · simp [hc]
  · rw [if_neg hc]
    cases acc <;> simp

lemma splitSep_ne_nil (l : List Char) : splitSep l ≠ [] := by
  cases l with
  | nil => simp [splitSep]
  | cons c cs => exact splitSepStep_ne_nil c (splitSep cs)

lemma splitSep_append (a b : List Char) :
    splitSep (a ++ '&' :: b) = splitSep a ++ splitSep b := by
  induction a with
  | nil =>
    show splitSepStep '&' (splitSep b) = [[]] ++ splitSep b
    simp [splitSepStep]
  | cons c cs ih =>
    show splitSepStep c (splitSep (cs ++ '&' :: b))
      = splitSepStep c (splitSep cs) ++ splitSep b
    rw [ih]
    by_cases hc : c = '&' ∨ c = ';'
    · simp [splitSepStep, hc]
    · rcases h : splitSep cs with _ | ⟨s, ss⟩
      · exact absurd h (splitSep_ne_nil cs)
      · simp [splitSepStep, if_neg hc, h]

lemma parse_qs_append (a b : List Char) :
    parse_qs (a ++ '&' :: b) = parse_qs a ++ parse_qs b := by
  unfold parse_qs
  rw [splitSep_append, List.filterMap_append]

lemma find?_append_of_found {α : Type} (f : α → Bool) (xs ys : List α)
    (h : (xs.find? f).isSome) :
    (xs ++ ys).find? f = xs.find? f := by
  induction xs with
  | nil => simp at h
  | cons x xt ih =>
    by_cases hx : f x
    · simp [List.find?_cons_of_pos _ hx]
    · simp only [List.find?_cons_of_neg _ hx] at h
      simp only [List.cons_append, List.find?_cons_of_neg _ hx]
      exact ih h

lemma firstVal_append_of_mem (ps qs : List (List Char × List Char))
    (k : List Char) (h : ∃ p ∈ ps, p.1 = k) :
    firstVal (ps ++ qs) k = firstVal ps k := by
  unfold firstVal
  rw [find?_append_of_found]
  rw [List.find?_isSome]
  obtain ⟨p, hp, he⟩ := h
  exact ⟨p, hp, by simp [he]⟩

/-! ### Claims about the request handler -/

/-- C2: for every GET request whose `iterations` query value is present
and parses as an integer `n`, the handler emits exactly: status 200, the
header `Content-type: text/plain` (HTTP header names are
case-insensitive; the code writes `Content-type`), end of headers, and a
body that is the host formatting `fmt` of `calc_pi n` — and raises no
error. -/
theorem do_GET_parsed (fmt : ℚ → String) (path v : List Char) (n : Int)
    (hv : firstVal (parse_qs (extractQuery path)) iterationsKey = some v)
    (hn : pyInt v = some n) :
    do_GET fmt path =
      ⟨[HttpEvent.statusLine 200,
        HttpEvent.header "Content-type" "text/plain",
        HttpEvent.endOfHeaders,
        HttpEvent.bodyWrite (fmt (calc_pi n))], none⟩ := by
  unfold do_GET handleQuery iterationsOf
  simp only [hv, hn]

/-- Witness for C2 at the request target `/?iterations=3`. -/
theorem do_GET_parsed_witness :
    do_GET (fun _ => "")
        ['/', '?', 'i', 't', 'e', 'r', 'a', 't', 'i', 'o', 'n', 's', '=', '3'] =
      ⟨[HttpEvent.statusLine 200,
        HttpEvent.header "Content-type" "text/plain",
        HttpEvent.endOfHeaders,
        HttpEvent.bodyWrite ((fun _ => "") (calc_pi 3))], none⟩ :=
  do_GET_parsed (fun _ => "") _ ['3'] 3 (by decide) (by decide)

/-- C4: when the `iterations` value is present but does not parse as an
integer, the integer conversion raises (`ValueError`), the error is
unhandled, and no normal 200 response is produced. -/
theorem do_GET_parse_error (fmt : ℚ → String) (path v : List Char)
    (hv : firstVal (parse_qs (extractQuery path)) iterationsKey = some v)
    (hn : pyInt v = none) :
    (do_GET fmt path).error = some "ValueError" ∧
      HttpEvent.statusLine 200 ∉ (do_GET fmt path).events := by
  have h : do_GET fmt path = ⟨[], some "ValueError"⟩ := by
    unfold do_GET handleQuery iterationsOf
    simp only [hv, hn]
  rw [h]
  exact ⟨rfl, by simp⟩

/-- Witness for C4 at the request target `/?iterations=abc`. -/
theorem do_GET_parse_error_witness :
    (do_GET (fun _ => "")
        ['/', '?', 'i', 't', 'e', 'r', 'a', 't', 'i', 'o', 'n', 's', '=',
          'a', 'b', 'c']).error = some "ValueError" ∧
      HttpEvent.statusLine 200 ∉
        (do_GET (fun _ => "")
          ['/', '?', 'i', 't', 'e', 'r', 'a', 't', 'i', 'o', 'n', 's', '=',
            'a', 'b', 'c']).events :=
  do_GET_parse_error (fun _ => "") _ ['a', 'b', 'c'] (by decide) (by decide)

/-- C6: when the `iterations` query parameter is absent, the default 1 is
used: the handler emits status 200 and a body formatting `calc_pi 1`,
whose value is exactly 4 (formatted by Python as `"4.0"`). -/
theorem do_GET_default (fmt : ℚ → String) (path : List Char)
    (h : firstVal (parse_qs (extractQuery path)) iterationsKey = none) :
    do_GET fmt path =
      ⟨[HttpEvent.statusLine 200,
        HttpEvent.header "Content-type" "text/plain",
        HttpEvent.endOfHeaders,
        HttpEvent.bodyWrite (fmt (calc_pi 1))], none⟩ ∧ calc_pi 1 = 4 := by
  constructor
  · unfold do_GET handleQuery iterationsOf
    simp only [h]
  · exact calc_pi_one

/-- Witness for C6 at the request target `/` (no query string). -/
theorem do_GET_default_witness :
    do_GET (fun _ => "") ['/'] =
      ⟨[HttpEvent.statusLine 200,
        HttpEvent.header "Content-type" "text/plain",
        HttpEvent.endOfHeaders,
        HttpEvent.bodyWrite ((fun _ => "") (calc_pi 1))], none⟩ ∧
      calc_pi 1 = 4 :=
  do_GET_default (fun _ => "") ['/'] (by decide)

/-- C7: occurrences of `iterations` after an earlier occurrence have no
effect: appending anything (in particular another `iterations=value`
pair) after a query string that already contains the key leaves the
handler's outcome unchanged, so only the first occurrence's value
determines the iteration count. -/
theorem handleQuery_ignores_later_duplicates (fmt : ℚ → String)
    (q r : List Char) (h : ∃ p ∈ parse_qs q, p.1 = iterationsKey) :
    handleQuery fmt (q ++ '&' :: r) = handleQuery fmt q := by
  unfold handleQuery iterationsOf
  rw [parse_qs_append, firstVal_append_of_mem _ _ _ h]

/-- Witness for C7 on the query string `iterations=2&iterations=9`. -/
theorem handleQuery_ignores_later_duplicates_witness :
    handleQuery (fun _ => "")
        (['i', 't', 'e', 'r', 'a', 't', 'i', 'o', 'n', 's', '=', '2'] ++
          '&' :: ['i', 't', 'e', 'r', 'a', 't', 'i', 'o', 'n', 's', '=', '9']) =
      handleQuery (fun _ => "")
        ['i', 't', 'e', 'r', 'a', 't', 'i', 'o', 'n', 's', '=', '2'] :=
  handleQuery_ignores_later_duplicates (fun _ => "") _ _ (by decide)

/-- C8: the path component is never inspected — two request targets with
different paths but the same query string produce identical outcomes. -/
theorem do_GET_ignores_path (fmt : ℚ → String) (p1 p2 q : List Char)
    (h1q : '?' ∉ p1) (h1h : '#' ∉ p1) (h2q : '?' ∉ p2) (h2h : '#' ∉ p2) :
    do_GET fmt (p1 ++ '?' :: q) = do_GET fmt (p2 ++ '?' :: q) := by
  unfold do_GET
  rw [extractQuery_front p1 q h1q h1h, extractQuery_front p2 q h2q h2h]

/-- Witness for C8 on the targets `/a?iterations=2` and `/bc?iterations=2`. -/
theorem do_GET_ignores_path_witness :
    do_GET (fun _ => "")
        (['/', 'a'] ++ '?' ::
          ['i', 't', 'e', 'r', 'a', 't', 'i', 'o', 'n', 's', '=', '2']) =
      do_GET (fun _ => "")
        (['/', 'b', 'c'] ++ '?' ::
          ['i', 't', 'e', 'r', 'a', 't', 'i', 'o', 'n', 's', '=', '2']) :=
  do_GET_ignores_path (fun _ => "") _ _ _ (by decide) (by decide) (by decide)
    (by decide)

/-- C10: the `iterations` value is parsed and converted before any part of
the response is written, so when the conversion fails the handler has
emitted no status line, no header and no body bytes at all. -/
theorem do_GET_no_partial_response (fmt : ℚ → String) (path v : List Char)
    (hv : firstVal (parse_qs (extractQuery path)) iterationsKey = some v)
    (hn : pyInt v = none) :
    (do_GET fmt path).events = [] := by
  unfold do_GET handleQuery iterationsOf
  simp only [hv, hn]

/-- Witness for C10 at the request target `/?iterations=12x`. -/
theorem do_GET_no_partial_response_witness :
    (do_GET (fun _ => "")
        ['/', '?', 'i', 't', 'e', 'r', 'a', 't', 'i', 'o', 'n', 's', '=',
          '1', '2', 'x']).events = [] :=
  do_GET_no_partial_response (fun _ => "") _ ['1', '2', 'x'] (by decide)
    (by decide)

/-!
### Oscillation of the partial sums around π

The Leibniz partial sums, viewed in `ℝ`, satisfy: every even-indexed sum
is strictly below `π/4` and every odd-indexed sum strictly above it, so
`calc_pi n` alternates around `π` as `n` grows.
-/

open Filter Topology

/-- The real-valued Leibniz partial sum, for comparison with `Real.pi`. -/
noncomputable def leibnizRealSum (n : ℕ) : ℝ :=
  ∑ i ∈ Finset.range n, (-1 : ℝ) ^ i / (2 * i + 1)

lemma leibnizRealSum_tendsto :
    Tendsto leibnizRealSum atTop (𝓝 (Real.pi / 4)) :=
  Real.tendsto_sum_pi_div_four

lemma leibnizRealSum_succ (k : ℕ) :
    leibnizRealSum (k + 1) = leibnizRealSum k + (-1 : ℝ) ^ k / (2 * k + 1) :=
  Finset.sum_range_succ _ _

lemma leibnizRealSum_even_step (k : ℕ) (hk : Even k) :
    leibnizRealSum (k + 2) =
      leibnizRealSum k + (1 / (2 * (k : ℝ) + 1) - 1 / (2 * (k : ℝ) + 3)) := by
  have e1 := leibnizRealSum_succ k
  have e2 := leibnizRealSum_succ (k + 1)
  rw [hk.neg_one_pow] at e1
  rw [hk.add_one.neg_one_pow] at e2
  push_cast at e2
  rw [show k + 1 + 1 = k + 2 by omega] at e2
  rw [e2, e1]; ring

lemma leibnizRealSum_odd_step (k : ℕ) (hk : Odd k) :
    leibnizRealSum (k + 2) =
      leibnizRealSum k - (1 / (2 * (k : ℝ) + 1) - 1 / (2 * (k : ℝ) + 3)) := by
  have e1 := leibnizRealSum_succ k
  have e2 := leibnizRealSum_succ (k + 1)
  rw [hk.neg_one_pow] at e1
  rw [hk.add_one.neg_one_pow] at e2
  push_cast at e2
  rw [show k + 1 + 1 = k + 2 by omega] at e2
  rw [e2, e1]; ring

lemma oneDiv_diff_pos (k : ℕ) :
    0 < 1 / (2 * (k : ℝ) + 1) - 1 / (2 * (k : ℝ) + 3) := by
  have h1 : (0 : ℝ) < 2 * (k : ℝ) + 1 := by positivity
  have h := one_div_lt_one_div_of_lt h1
    (by linarith : 2 * (k : ℝ) + 1 < 2 * (k : ℝ) + 3)
  linarith

lemma leibnizRealSum_even_strictMono :
    StrictMono (fun j : ℕ => leibnizRealSum (2 * j)) := by
  apply strictMono_nat_of_lt_succ
  intro m
  show leibnizRealSum (2 * m) < leibnizRealSum (2 * (m + 1))
  have h := leibnizRealSum_even_step (2 * m) ⟨m, by ring⟩
  have hp := oneDiv_diff_pos (2 * m)
  rw [show 2 * (m + 1) = 2 * m + 2 by ring, h]
  linarith

lemma leibnizRealSum_odd_strictAnti :
    StrictAnti (fun j : ℕ => leibnizRealSum (2 * j + 1)) := by
  apply strictAnti_nat_of_succ_lt
  intro m
  show leibnizRealSum (2 * (m + 1) + 1) < leibnizRealSum (2 * m + 1)
  have h := leibnizRealSum_odd_step (2 * m + 1) ⟨m, rfl⟩
  have hp := oneDiv_diff_pos (2 * m + 1)
  rw [show 2 * (m + 1) + 1 = 2 * m + 1 + 2 by ring, h]
  linarith

lemma leibnizRealSum_even_lt (m : ℕ) :
    leibnizRealSum (2 * m) < Real.pi / 4 := by
  have h2 : Tendsto (fun j : ℕ => 2 * j) atTop atTop :=
    tendsto_atTop_mono (fun n => by simp only [id_eq]; omega) tendsto_id
  have htend : Tendsto (fun j : ℕ => leibnizRealSum (2 * j)) atTop
      (𝓝 (Real.pi / 4)) := leibnizRealSum_tendsto.comp h2
  have hle : ∀ j, leibnizRealSum (2 * j) ≤ Real.pi / 4 := fun j =>
    leibnizRealSum_even_strictMono.monotone.ge_of_tendsto htend j
  calc leibnizRealSum (2 * m)
      < leibnizRealSum (2 * (m + 1)) :=
        leibnizRealSum_even_strictMono (by omega : m < m + 1)
    _ ≤ Real.pi / 4 := hle (m + 1)

lemma leibnizRealSum_odd_gt (m : ℕ) :
    Real.pi / 4 < leibnizRealSum (2 * m + 1) := by
  have h2 : Tendsto (fun j : ℕ => 2 * j + 1) atTop atTop :=
    tendsto_atTop_mono (fun n => by simp only [id_eq]; omega) tendsto_id
  have htend : Tendsto (fun j : ℕ => leibnizRealSum (2 * j + 1)) atTop
      (𝓝 (Real.pi / 4)) := leibnizRealSum_tendsto.comp h2
  have hge : ∀ j, Real.pi / 4 ≤ leibnizRealSum (2 * j + 1) := fun j =>
    leibnizRealSum_odd_strictAnti.antitone.le_of_tendsto htend j
  calc Real.pi / 4
      ≤ leibnizRealSum (2 * (m + 1) + 1) := hge (m + 1)
    _ < leibnizRealSum (2 * m + 1) :=
        leibnizRealSum_odd_strictAnti (by omega : m < m + 1)

lemma calc_pi_real (n : ℕ) :
    ((calc_pi (n : Int) : ℚ) : ℝ) = 4 * leibnizRealSum n := by
  rw [calc_pi_natCast n]
  simp only [leibnizPartialSum, leibnizRealSum]
  push_cast
  rfl

/-- C9: the sequence of values `calc_pi n` oscillates around π: for every
`n`, `calc_pi n` (as a real number) is above π exactly when `n` is odd,
so consecutive iteration counts alternate between being above and below
π. -/
theorem calc_pi_oscillates (n : ℕ) :
    Real.pi < ((calc_pi (n : Int) : ℚ) : ℝ) ↔ Odd n := by
  rw [calc_pi_real n]
  rcases Nat.even_or_odd n with he | ho
  · obtain ⟨m, hm⟩ := he
    have hn2 : n = 2 * m := by omega
    subst hn2
    have h := leibnizRealSum_even_lt m
    have hnotodd : ¬ Odd (2 * m) := by rw [Nat.odd_iff]; omega
    constructor
    · intro hc; exfalso; linarith
    · intro hodd; exact absurd hodd hnotodd
  · obtain ⟨m, hm⟩ := ho
    subst hm
    have h := leibnizRealSum_odd_gt m
    constructor
    · intro _; exact ⟨m, rfl⟩
    · intro _; linarith

end Sharkbench
